import Mathlib

/-!
Shallow embedding of the core domain logic of the gift-planner app:
the membership/invitation engine (src/lib/firestore/events.ts), the
wishlist mutation engine (src/lib/firestore/wishlists.ts), the
assignment coordinator (assignments module), and profile reads
(src/lib/auth.ts).

Firestore documents are modelled as Lean structures; `Timestamp` values
as `Nat`; a document read as an explicit `Option` input (`none` models a
missing document); a thrown JS `Error` as `Except String` carrying the
error message.
-/

namespace GiftPlanner

/-- Model of JavaScript `Array.prototype.findIndex`: the index of the
first element satisfying the predicate (`none` models the `-1` result). -/
def findIndex {α : Type} (p : α → Bool) : List α → Option Nat
  | [] => none
  | a :: l => if p a then some 0 else (findIndex p l).map (· + 1)

/-- Invitation status, from the `status` union type in the `Event`
interface of src/lib/firestore/events.ts. -/
inductive InvStatus where
  | pending
  | accepted
  | rejected
deriving DecidableEq, Inhabited

/-- One record of the `invitations` array of an event document. -/
structure Invitation where
  email : String
  status : InvStatus
  invitedBy : String
  invitedAt : Nat
deriving DecidableEq, Inhabited

/-- An `events/{id}` document (interface `Event` in
src/lib/firestore/events.ts). -/
structure Event where
  id : String
  name : String
  createdBy : String
  createdAt : Nat
  eventDate : Option Nat
  members : List String
  invitations : List Invitation
deriving DecidableEq, Inhabited

/-- createEvent (src/lib/firestore/events.ts, lines 34-54): builds the
initial event document. The generated document id and the server
timestamp are passed in explicitly. -/
def createEvent (name createdBy : String) (eventDate : Option Nat)
    (newId : String) (now : Nat) : Event :=
  { id := newId
    name := name
    createdBy := createdBy
    createdAt := now
    eventDate := eventDate
    members := [createdBy]
    invitations := [] }

/-- inviteUserToEvent (src/lib/firestore/events.ts, lines 117-179).
The `ev` argument is the outcome of the `getDoc` read (`none` when the
document does not exist). The code indexes `invitations` with the index
produced by `findIndex`; this in-bounds access is modelled with `getD`. -/
def inviteUserToEvent (ev : Option Event) (email invitedBy : String)
    (now : Nat) : Except String Event :=
  match ev with
  | none => .error "Event not found"
  | some eventData =>
    match findIndex (fun inv => inv.email == email) eventData.invitations with
    | some existingInvitationIndex =>
      let existingInvitation :=
        eventData.invitations.getD existingInvitationIndex default
      if existingInvitation.status = .pending then
        .error "User already invited"
      else
        .ok { eventData with
              invitations := eventData.invitations.set existingInvitationIndex
                ⟨email, .pending, invitedBy, now⟩ }
    | none =>
      .ok { eventData with
            invitations := eventData.invitations ++
              [⟨email, .pending, invitedBy, now⟩] }

/-- acceptInvitation (src/lib/firestore/events.ts, lines 305-357). Flips
the matched pending invitation to accepted and appends the user to
`members`; both updates land in the same written document. -/
def acceptInvitation (ev : Option Event) (userId email : String) :
    Except String Event :=
  match ev with
  | none => .error "Event not found"
  | some eventData =>
    match findIndex
        (fun inv => inv.email == email && decide (inv.status = .pending))
        eventData.invitations with
    | none => .error "Invitation not found or already processed"
    | some invitationIndex =>
      if eventData.members.contains userId then
        .error "User is already a member of this event"
      else
        let inv := eventData.invitations.getD invitationIndex default
        .ok { eventData with
              invitations := eventData.invitations.set invitationIndex
                { inv with status := .accepted }
              members := eventData.members ++ [userId] }

/-- rejectInvitation (src/lib/firestore/events.ts, lines 359-395). -/
def rejectInvitation (ev : Option Event) (email : String) :
    Except String Event :=
  match ev with
  | none => .error "Event not found"
  | some eventData =>
    match findIndex
        (fun inv => inv.email == email && decide (inv.status = .pending))
        eventData.invitations with
    | none => .error "Invitation not found or already processed"
    | some invitationIndex =>
      let inv := eventData.invitations.getD invitationIndex default
      .ok { eventData with
            invitations := eventData.invitations.set invitationIndex
              { inv with status := .rejected } }

/-- removeMemberFromEvent (src/lib/firestore/events.ts, lines 397-448).
`profileEmail` models the outcome of the inner `getUserData(memberId)`
call: `some userEmail` when a profile with an email was found, `none`
when the profile was missing, had no email, or the lookup threw (the
code catches that error and keeps the invitations unchanged). -/
def removeMemberFromEvent (ev : Option Event) (memberId : String)
    (profileEmail : Option String) : Except String Event :=
  match ev with
  | none => .error "Event not found"
  | some eventData =>
    if eventData.createdBy = memberId then
      .error "Cannot remove the event creator"
    else if ¬ eventData.members.contains memberId then
      .error "User is not a member of this event"
    else
      let updatedMembers := eventData.members.filter (fun uid => uid != memberId)
      let updatedInvitations :=
        match profileEmail with
        | some userEmail =>
          eventData.invitations.filter
            (fun inv => !(inv.email == userEmail && decide (inv.status = .accepted)))
        | none => eventData.invitations
      .ok { eventData with
            members := updatedMembers
            invitations := updatedInvitations }

/-- Event states reachable from `createEvent` by successful invite,
accept, reject and remove-member operations. -/
inductive Reachable : Event → Prop where
  | create (name createdBy : String) (eventDate : Option Nat)
      (newId : String) (now : Nat) :
      Reachable (createEvent name createdBy eventDate newId now)
  | invite {e e2 : Event} (email invitedBy : String) (now : Nat) :
      Reachable e → inviteUserToEvent (some e) email invitedBy now = .ok e2 →
      Reachable e2
  | accept {e e2 : Event} (userId email : String) :
      Reachable e → acceptInvitation (some e) userId email = .ok e2 →
      Reachable e2
  | reject {e e2 : Event} (email : String) :
      Reachable e → rejectInvitation (some e) email = .ok e2 →
      Reachable e2
  | remove {e e2 : Event} (memberId : String) (profileEmail : Option String) :
      Reachable e → removeMemberFromEvent (some e) memberId profileEmail = .ok e2 →
      Reachable e2

section ListHelpers

variable {α : Type} {p : α → Bool}

/-- findIndex misses exactly when no element satisfies the predicate. -/
theorem findIndex_eq_none_iff {l : List α} :
    findIndex p l = none ↔ ∀ a ∈ l, ¬ p a := by
  induction l with
  | nil => simp [findIndex]
  | cons a l ih =>
    simp only [findIndex]
    by_cases h : p a
    · simp [h]
    · simp [h, Option.map_eq_none', ih]

/-- findIndex on a list whose first predicate hit sits after `l1`. -/
theorem findIndex_middle {l1 : List α} (x : α) (l2 : List α)
    (h1 : ∀ a ∈ l1, ¬ p a) (hx : p x) :
    findIndex p (l1 ++ x :: l2) = some l1.length := by
  induction l1 with
  | nil => simp [findIndex, hx]
  | cons a l ih =>
    have ha : ¬ p a := h1 a (by simp)
    have := ih (fun b hb => h1 b (by simp [hb]))
    simp [findIndex, ha, this]

/-- A successful findIndex returns an in-bounds index whose element
satisfies the predicate. -/
theorem findIndex_some {l : List α} {i : Nat}
    (h : findIndex p l = some i) :
    ∃ hi : i < l.length, p (l.get ⟨i, hi⟩) := by
  induction l generalizing i with
  | nil => simp [findIndex] at h
  | cons a l ih =>
    simp only [findIndex] at h
    by_cases ha : p a
    · rw [if_pos ha] at h
      injection h with h
      subst h
      exact ⟨by simp, by simpa⟩
    · rw [if_neg ha] at h
      obtain ⟨j, hj, hji⟩ := Option.map_eq_some'.mp h
      subst hji
      obtain ⟨hlt, hp⟩ := ih hj
      exact ⟨by simpa using Nat.succ_lt_succ hlt, by simpa using hp⟩

/-- getD at the junction point of a split list. -/
theorem getD_middle (l1 : List α) (x : α) (l2 : List α) (d : α) :
    (l1 ++ x :: l2).getD l1.length d = x := by
  induction l1 with
  | nil => rfl
  | cons a l ih => simpa [List.getD] using ih

/-- set at the junction point of a split list. -/
theorem set_middle (l1 : List α) (x y : α) (l2 : List α) :
    (l1 ++ x :: l2).set l1.length y = l1 ++ y :: l2 := by
  induction l1 with
  | nil => rfl
  | cons a l ih => simp [List.set, ih]

/-- Writing back the value already stored at an in-bounds index is a
no-op. -/
theorem set_getD_self (l : List α) (i : Nat) (d : α) (h : i < l.length) :
    l.set i (l.getD i d) = l := by
  induction l generalizing i with
  | nil => simp at h
  | cons a l ih =>
    cases i with
    | zero => simp [List.getD]
    | succ j =>
      have := ih j (by simpa using h)
      simp [List.getD, List.set] at this ⊢
      simpa [List.getD] using this

/-- A list whose filtrate is a single element splits around that
element, with no other predicate hit on either side. -/
theorem filter_single_decomp {l : List α} {x : α}
    (h : l.filter p = [x]) :
    ∃ l1 l2, l = l1 ++ x :: l2 ∧ (∀ a ∈ l1, ¬ p a) ∧
      (∀ a ∈ l2, ¬ p a) ∧ p x := by
  induction l with
  | nil => simp at h
  | cons a l ih =>
    by_cases ha : p a
    · rw [List.filter_cons_of_pos ha] at h
      injection h with h1 h2
      subst h1
      refine ⟨[], l, by simp, by simp, ?_, ha⟩
      intro b hb
      exact List.filter_eq_nil_iff.mp h2 b hb
    · rw [List.filter_cons_of_neg (by simpa using ha)] at h
      obtain ⟨l1, l2, rfl, h1, h2, hx⟩ := ih h
      refine ⟨a :: l1, l2, rfl, ?_, h2, hx⟩
      intro b hb
      rcases List.mem_cons.mp hb with rfl | hb
      · exact ha
      · exact h1 b hb

end ListHelpers

/-- Relate `getD` to `get` at an in-bounds index. -/
theorem getD_eq_get {α : Type} (l : List α) (i : Nat) (d : α)
    (hi : i < l.length) : l.getD i d = l.get ⟨i, hi⟩ := by
  induction l generalizing i with
  | nil => simp at hi
  | cons a l ih =>
    cases i with
    | zero => rfl
    | succ j => exact ih j (by simpa using hi)

/-- Writing back the element already stored at an index is a no-op. -/
theorem set_get_self {α : Type} (l : List α) (i : Nat) (hi : i < l.length) :
    l.set i (l.get ⟨i, hi⟩) = l := by
  have := set_getD_self l i (l.get ⟨i, hi⟩) hi
  rwa [getD_eq_get l i _ hi] at this

/-- Event used against C1 as stated: two invitation records for the same
email, the first accepted, the second pending. Such a state is not
produced by the engine operations themselves, but C1 quantifies over
every existing event document. -/
def dupEmailEvent : Event :=
  { id := "e1"
    name := "Party"
    createdBy := "u1"
    createdAt := 0
    eventDate := none
    members := ["u1"]
    invitations :=
      [⟨"b@x.com", .accepted, "u1", 0⟩, ⟨"b@x.com", .pending, "u1", 1⟩] }

/-- C1 counterexample: on `dupEmailEvent` the invitations do contain a
pending record for "b@x.com", yet `inviteUserToEvent` does not fail with
"User already invited" — it dispatches on the first record matching the
email (the accepted one) and overwrites it, changing the stored array. -/
theorem invite_pending_duplicate_counterexample :
    (∃ inv ∈ dupEmailEvent.invitations,
      inv.email = "b@x.com" ∧ inv.status = InvStatus.pending) ∧
    inviteUserToEvent (some dupEmailEvent) "b@x.com" "u2" 5 =
      .ok { dupEmailEvent with
            invitations :=
              [⟨"b@x.com", .pending, "u2", 5⟩, ⟨"b@x.com", .pending, "u1", 1⟩] } := by
  constructor
  · exact ⟨⟨"b@x.com", .pending, "u1", 1⟩, by decide, rfl, rfl⟩
  · rfl

/-- C1 (amended): on an event holding at most one invitation record for
the given email — which is the case in every state the engine itself
produces — inviteUserToEvent appends a fresh pending record when no
record for the email exists, fails with "User already invited" when the
record for the email is pending, and otherwise overwrites that record in
place (same array position, all other records unchanged) resetting it to
status pending with the new inviter and invitation time. -/
theorem invite_case_analysis (e : Event) (email invitedBy : String) (now : Nat) :
    (e.invitations.filter (fun inv => inv.email == email) = [] →
      inviteUserToEvent (some e) email invitedBy now =
        .ok { e with invitations :=
                e.invitations ++ [⟨email, .pending, invitedBy, now⟩] }) ∧
    (∀ inv0, e.invitations.filter (fun inv => inv.email == email) = [inv0] →
      inv0.status = .pending →
      inviteUserToEvent (some e) email invitedBy now =
        .error "User already invited") ∧
    (∀ inv0, e.invitations.filter (fun inv => inv.email == email) = [inv0] →
      inv0.status ≠ .pending →
      ∃ l1 l2, e.invitations = l1 ++ inv0 :: l2 ∧
        (∀ a ∈ l1, a.email ≠ email) ∧ (∀ a ∈ l2, a.email ≠ email) ∧
        inviteUserToEvent (some e) email invitedBy now =
          .ok { e with invitations :=
                  l1 ++ ⟨email, .pending, invitedBy, now⟩ :: l2 }) := by
  refine ⟨?_, ?_, ?_⟩
  · intro hnil
    have hnone : findIndex (fun inv => inv.email == email) e.invitations = none :=
      findIndex_eq_none_iff.mpr (List.filter_eq_nil_iff.mp hnil)
    simp [inviteUserToEvent, hnone]
  · intro inv0 hone hpend
    obtain ⟨l1, l2, heq, h1, h2, hx⟩ := filter_single_decomp hone
    have hidx : findIndex (fun inv => inv.email == email) e.invitations =
        some l1.length := by
      rw [heq]; exact findIndex_middle inv0 l2 h1 hx
    have hget : e.invitations.getD l1.length default = inv0 := by
      rw [heq]; exact getD_middle l1 inv0 l2 default
    have hget2 : (e.invitations[l1.length]?).getD default = inv0 := by
      rw [← List.getD_eq_getElem?_getD]; exact hget
    simp [inviteUserToEvent, hidx, hget2, hpend]
  · intro inv0 hone hnp
    obtain ⟨l1, l2, heq, h1, h2, hx⟩ := filter_single_decomp hone
    refine ⟨l1, l2, heq, fun a ha => by simpa using h1 a ha,
      fun a ha => by simpa using h2 a ha, ?_⟩
    have hidx : findIndex (fun inv => inv.email == email) e.invitations =
        some l1.length := by
      rw [heq]; exact findIndex_middle inv0 l2 h1 hx
    have hget : e.invitations.getD l1.length default = inv0 := by
      rw [heq]; exact getD_middle l1 inv0 l2 default
    have hget2 : (e.invitations[l1.length]?).getD default = inv0 := by
      rw [← List.getD_eq_getElem?_getD]; exact hget
    have hset : e.invitations.set l1.length ⟨email, .pending, invitedBy, now⟩ =
        l1 ++ ⟨email, .pending, invitedBy, now⟩ :: l2 := by
      rw [heq]; exact set_middle l1 inv0 _ l2
    simp [inviteUserToEvent, hidx, hget2, hnp, hset]

/-- Event with a single accepted invitation record, used to witness the
amended C1 and the C5 round trip on concrete data. -/
def oneAcceptedEvent : Event :=
  { id := "e1"
    name := "Party"
    createdBy := "u1"
    createdAt := 0
    eventDate := none
    members := ["u1", "u2"]
    invitations := [⟨"b@x.com", .accepted, "u1", 0⟩] }

/-- Witness for the amended C1 at a concrete event: re-inviting an email
whose single record is accepted overwrites that record in place. -/
theorem invite_case_analysis_witness :
    ∃ l1 l2, oneAcceptedEvent.invitations =
        l1 ++ (⟨"b@x.com", .accepted, "u1", 0⟩ : Invitation) :: l2 ∧
      (∀ a ∈ l1, a.email ≠ "b@x.com") ∧ (∀ a ∈ l2, a.email ≠ "b@x.com") ∧
      inviteUserToEvent (some oneAcceptedEvent) "b@x.com" "u2" 9 =
        .ok { oneAcceptedEvent with
              invitations := l1 ++ ⟨"b@x.com", .pending, "u2", 9⟩ :: l2 } :=
  (invite_case_analysis oneAcceptedEvent "b@x.com" "u2" 9).2.2
    ⟨"b@x.com", .accepted, "u1", 0⟩ (by decide) (by decide)

/-- Replacing an element by one with the same image leaves the mapped
list unchanged. -/
theorem map_set_same {α β : Type} (f : α → β) (l : List α) (i : Nat) (a : α)
    (hi : i < l.length) (hf : f a = f (l.get ⟨i, hi⟩)) :
    (l.set i a).map f = l.map f := by
  induction l generalizing i with
  | nil => simp at hi
  | cons x l ih =>
    cases i with
    | zero =>
      have hfx : f a = f x := by simpa using hf
      simp [List.set, hfx]
    | succ j =>
      have hj : j < l.length := by simpa using hi
      have hfj : f a = f (l.get ⟨j, hj⟩) := by simpa using hf
      simp [List.set, ih j hj hfj]

/-- Inversion of a successful inviteUserToEvent: the creator and the
members are untouched, and the invitations either get one record for the
email overwritten in place or a fresh pending record appended. -/
theorem invite_ok_elim {e e2 : Event} {email invitedBy : String} {now : Nat}
    (h : inviteUserToEvent (some e) email invitedBy now = .ok e2) :
    e2.createdBy = e.createdBy ∧ e2.members = e.members ∧
    ((∃ i, ∃ hi : i < e.invitations.length,
        (e.invitations.get ⟨i, hi⟩).email = email ∧
        e2.invitations = e.invitations.set i ⟨email, .pending, invitedBy, now⟩) ∨
      ((∀ inv ∈ e.invitations, inv.email ≠ email) ∧
        e2.invitations = e.invitations ++ [⟨email, .pending, invitedBy, now⟩])) := by
  cases hf : findIndex (fun inv => inv.email == email) e.invitations with
  | none =>
    simp only [inviteUserToEvent, hf] at h
    injection h with h
    subst h
    refine ⟨rfl, rfl, Or.inr ⟨?_, rfl⟩⟩
    intro inv hmem
    simpa using findIndex_eq_none_iff.mp hf inv hmem
  | some i =>
    obtain ⟨hi, hp⟩ := findIndex_some hf
    simp only [inviteUserToEvent, hf] at h
    by_cases hst : (e.invitations.getD i default).status = InvStatus.pending
    · rw [if_pos hst] at h
      exact Except.noConfusion h
    · rw [if_neg hst] at h
      injection h with h
      subst h
      exact ⟨rfl, rfl, Or.inl ⟨i, hi, by simpa using hp, rfl⟩⟩

/-- Inversion of a successful acceptInvitation: the creator is
untouched, the user was not yet a member and is appended to the members,
and exactly one invitation record has its status flipped to accepted. -/
theorem accept_ok_elim {e e2 : Event} {userId email : String}
    (h : acceptInvitation (some e) userId email = .ok e2) :
    e2.createdBy = e.createdBy ∧ e2.members = e.members ++ [userId] ∧
    userId ∉ e.members ∧
    ∃ i, ∃ hi : i < e.invitations.length,
      e2.invitations = e.invitations.set i
        { e.invitations.get ⟨i, hi⟩ with status := .accepted } := by
  cases hf : findIndex
      (fun inv => inv.email == email && decide (inv.status = .pending))
      e.invitations with
  | none =>
    simp only [acceptInvitation, hf] at h
    exact Except.noConfusion h
  | some i =>
    obtain ⟨hi, hp⟩ := findIndex_some hf
    simp only [acceptInvitation, hf] at h
    by_cases hm : e.members.contains userId
    · rw [if_pos hm] at h
      exact Except.noConfusion h
    · rw [if_neg hm] at h
      injection h with h
      subst h
      refine ⟨rfl, rfl, fun hmem => hm (by simpa using hmem), i, hi, ?_⟩
      rw [getD_eq_get e.invitations i default hi]

/-- Inversion of a successful rejectInvitation: only one invitation
record changes, and only its status. -/
theorem reject_ok_elim {e e2 : Event} {email : String}
    (h : rejectInvitation (some e) email = .ok e2) :
    e2.createdBy = e.createdBy ∧ e2.members = e.members ∧
    ∃ i, ∃ hi : i < e.invitations.length,
      e2.invitations = e.invitations.set i
        { e.invitations.get ⟨i, hi⟩ with status := .rejected } := by
  cases hf : findIndex
      (fun inv => inv.email == email && decide (inv.status = .pending))
      e.invitations with
  | none =>
    simp only [rejectInvitation, hf] at h
    exact Except.noConfusion h
  | some i =>
    obtain ⟨hi, hp⟩ := findIndex_some hf
    simp only [rejectInvitation, hf] at h
    injection h with h
    subst h
    refine ⟨rfl, rfl, i, hi, ?_⟩
    rw [getD_eq_get e.invitations i default hi]

/-- Inversion of a successful removeMemberFromEvent: the removed user is
not the creator, the members are filtered, and the invitations written
back are a sublist of the previous ones. -/
theorem remove_ok_elim {e e2 : Event} {memberId : String}
    {profileEmail : Option String}
    (h : removeMemberFromEvent (some e) memberId profileEmail = .ok e2) :
    e2.createdBy = e.createdBy ∧ e.createdBy ≠ memberId ∧
    memberId ∈ e.members ∧
    e2.members = e.members.filter (fun uid => uid != memberId) ∧
    List.Sublist e2.invitations e.invitations := by
  simp only [removeMemberFromEvent] at h
  by_cases hc : e.createdBy = memberId
  · rw [if_pos hc] at h
    exact Except.noConfusion h
  · rw [if_neg hc] at h
    by_cases hm : e.members.contains memberId
    · rw [if_neg (not_not_intro hm)] at h
      cases profileEmail with
      | some userEmail =>
        injection h with h
        subst h
        exact ⟨rfl, hc, by simpa using hm, rfl, List.filter_sublist _⟩
      | none =>
        injection h with h
        subst h
        exact ⟨rfl, hc, by simpa using hm, rfl, List.Sublist.refl _⟩
    · rw [if_pos (by simpa using hm)] at h
      exact Except.noConfusion h

/-- In every reachable event state the creator is a member. -/
theorem reachable_creator_mem {e : Event} (h : Reachable e) :
    e.createdBy ∈ e.members := by
  induction h with
  | create name createdBy eventDate newId now => simp [createEvent]
  | invite email invitedBy now hr hok ih =>
    obtain ⟨hcb, hm, -⟩ := invite_ok_elim hok
    rw [hcb, hm]; exact ih
  | accept userId email hr hok ih =>
    obtain ⟨hcb, hm, -, -⟩ := accept_ok_elim hok
    rw [hcb, hm]; exact List.mem_append_left _ ih
  | reject email hr hok ih =>
    obtain ⟨hcb, hm, -⟩ := reject_ok_elim hok
    rw [hcb, hm]; exact ih
  | remove memberId profileEmail hr hok ih =>
    obtain ⟨hcb, hne, -, hm, -⟩ := remove_ok_elim hok
    rw [hcb, hm]
    exact List.mem_filter.mpr ⟨ih, by simpa using hne⟩

/-- In every reachable event state the invitation emails are pairwise
distinct. -/
theorem reachable_email_nodup {e : Event} (h : Reachable e) :
    (e.invitations.map Invitation.email).Nodup := by
  induction h with
  | create name createdBy eventDate newId now => simp [createEvent]
  | invite email invitedBy now hr hok ih =>
    obtain ⟨-, -, hinv⟩ := invite_ok_elim hok
    rcases hinv with ⟨i, hi, hemail, heq⟩ | ⟨hfresh, heq⟩
    · rw [heq, map_set_same Invitation.email _ i _ hi (by simpa using hemail.symm)]
      exact ih
    · rw [heq, List.map_append]
      simp only [List.map_cons, List.map_nil]
      rw [← List.concat_eq_append]
      refine List.Nodup.concat ?_ ih
      intro hmem
      obtain ⟨inv, hinv, hinveq⟩ := List.mem_map.mp hmem
      exact hfresh inv hinv hinveq
  | accept userId email hr hok ih =>
    obtain ⟨-, -, -, i, hi, heq⟩ := accept_ok_elim hok
    rw [heq, map_set_same Invitation.email _ i _ hi (by rfl)]
    exact ih
  | reject email hr hok ih =>
    obtain ⟨-, -, i, hi, heq⟩ := reject_ok_elim hok
    rw [heq, map_set_same Invitation.email _ i _ hi (by rfl)]
    exact ih
  | remove memberId profileEmail hr hok ih =>
    obtain ⟨-, -, -, -, hsub⟩ := remove_ok_elim hok
    exact ih.sublist (hsub.map Invitation.email)

/-- Decidable equality of results, used to evaluate the operations on
concrete inputs. -/
instance {ε α : Type} [DecidableEq ε] [DecidableEq α] :
    DecidableEq (Except ε α)
  | .error a, .error b =>
    if h : a = b then isTrue (h ▸ rfl)
    else isFalse fun hc => h (by injection hc)
  | .error _, .ok _ => isFalse fun hc => Except.noConfusion hc
  | .ok _, .error _ => isFalse fun hc => Except.noConfusion hc
  | .ok a, .ok b =>
    if h : a = b then isTrue (h ▸ rfl)
    else isFalse fun hc => h (by injection hc)

/-- C3: in every event state reachable from createEvent through the four
membership operations the creator id is an element of the members list,
and removeMemberFromEvent on the creator id always fails with "Cannot
remove the event creator", whatever the membership state (the creator
guard runs before the membership check). -/
theorem creator_member_invariant :
    (∀ e : Event, Reachable e → e.createdBy ∈ e.members) ∧
    (∀ (e : Event) (profileEmail : Option String),
      removeMemberFromEvent (some e) e.createdBy profileEmail =
        .error "Cannot remove the event creator") := by
  refine ⟨fun e h => reachable_creator_mem h, fun e profileEmail => ?_⟩
  simp [removeMemberFromEvent]

/-- Event whose members list does not even contain its creator; the
creator-removal guard still fires on it. -/
def creatorlessEvent : Event :=
  { id := "e2"
    name := "X"
    createdBy := "u1"
    createdAt := 0
    eventDate := none
    members := []
    invitations := [] }

/-- Witness for C3 at concrete inputs: a freshly created event has its
creator among the members, and creator removal fails even on an event
whose members list lacks the creator. -/
theorem creator_member_invariant_witness :
    Reachable (createEvent "Party" "u1" none "e1" 0) ∧
    (createEvent "Party" "u1" none "e1" 0).createdBy ∈
      (createEvent "Party" "u1" none "e1" 0).members ∧
    removeMemberFromEvent (some creatorlessEvent) creatorlessEvent.createdBy
      none = .error "Cannot remove the event creator" :=
  ⟨Reachable.create _ _ _ _ _,
   creator_member_invariant.1 _ (Reachable.create "Party" "u1" none "e1" 0),
   creator_member_invariant.2 creatorlessEvent none⟩

/-- C4: in every reachable event state no two invitation records share
an email while both are pending (in fact no two records share an email
at all). -/
theorem no_duplicate_pending_invitations (e : Event) (h : Reachable e) :
    ∀ i j (hi : i < e.invitations.length) (hj : j < e.invitations.length),
      i ≠ j →
      (e.invitations.get ⟨i, hi⟩).status = .pending →
      (e.invitations.get ⟨j, hj⟩).status = .pending →
      (e.invitations.get ⟨i, hi⟩).email ≠ (e.invitations.get ⟨j, hj⟩).email := by
  intro i j hi hj hij hpi hpj hemail
  apply hij
  have hnodup := reachable_email_nodup h
  have hmap : (e.invitations.map Invitation.email).get ⟨i, by simpa⟩ =
      (e.invitations.map Invitation.email).get ⟨j, by simpa⟩ := by
    simp only [List.get_eq_getElem, List.getElem_map]
    exact hemail
  exact congrArg Fin.val ((List.Nodup.get_inj_iff hnodup).mp hmap)

/-- Intermediate event of the C4 witness: one pending invitation. -/
def oneInviteEvent : Event :=
  { id := "e1"
    name := "Party"
    createdBy := "u1"
    createdAt := 0
    eventDate := none
    members := ["u1"]
    invitations := [⟨"a@x.com", .pending, "u1", 1⟩] }

/-- Final event of the C4 witness: two pending invitations for two
distinct emails, reached by two invites from a fresh event. -/
def twoInviteEvent : Event :=
  { id := "e1"
    name := "Party"
    createdBy := "u1"
    createdAt := 0
    eventDate := none
    members := ["u1"]
    invitations :=
      [⟨"a@x.com", .pending, "u1", 1⟩, ⟨"b@x.com", .pending, "u1", 2⟩] }

/-- Witness for C4 on a concrete reachable state with two pending
invitations: their emails differ. -/
theorem no_duplicate_pending_invitations_witness :
    (twoInviteEvent.invitations.get ⟨0, by decide⟩).email ≠
      (twoInviteEvent.invitations.get ⟨1, by decide⟩).email := by
  have h0 : Reachable (createEvent "Party" "u1" none "e1" 0) :=
    Reachable.create "Party" "u1" none "e1" 0
  have h1 : Reachable oneInviteEvent :=
    Reachable.invite "a@x.com" "u1" 1 h0 (by decide)
  have h2 : Reachable twoInviteEvent :=
    Reachable.invite "b@x.com" "u1" 2 h1 (by decide)
  exact no_duplicate_pending_invitations twoInviteEvent h2 0 1
    (by decide) (by decide) (by decide) (by decide) (by decide)

/-- C2: starting from a state in which the email has no invitation
record, the invitation emails are pairwise distinct, and the user is not
yet a member, invite followed by accept succeeds; the single event
written by the accept step carries both the member append and the status
flip, the user ends up a member, and exactly one invitation record
exists for the email, with status accepted. -/
theorem invite_accept_round_trip (e : Event) (email inviter userId : String)
    (now : Nat)
    (hfresh : ∀ inv ∈ e.invitations, inv.email ≠ email)
    (_huniq : (e.invitations.map Invitation.email).Nodup)
    (hmem : userId ∉ e.members) :
    ∃ e1 e2,
      inviteUserToEvent (some e) email inviter now = .ok e1 ∧
      acceptInvitation (some e1) userId email = .ok e2 ∧
      e2.members = e1.members ++ [userId] ∧ userId ∈ e2.members ∧
      e2.invitations.filter (fun inv => inv.email == email) =
        [⟨email, .accepted, inviter, now⟩] := by
  have hnone : findIndex (fun inv => inv.email == email) e.invitations = none :=
    findIndex_eq_none_iff.mpr (fun inv hm => by simpa using hfresh inv hm)
  have hinv : inviteUserToEvent (some e) email inviter now =
      .ok { e with invitations :=
              e.invitations ++ [⟨email, .pending, inviter, now⟩] } := by
    simp [inviteUserToEvent, hnone]
  have hl1 : ∀ a ∈ e.invitations,
      ¬ ((a.email == email && decide (a.status = InvStatus.pending)) = true) := by
    intro a ha hcontra
    simp only [Bool.and_eq_true, beq_iff_eq] at hcontra
    exact hfresh a ha hcontra.1
  have hmid : findIndex
      (fun inv => inv.email == email && decide (inv.status = InvStatus.pending))
      (e.invitations ++ [⟨email, .pending, inviter, now⟩]) =
      some e.invitations.length := by
    simpa using findIndex_middle ⟨email, .pending, inviter, now⟩ [] hl1 (by simp)
  have hgd : ((e.invitations ++
      [⟨email, .pending, inviter, now⟩])[e.invitations.length]?).getD default =
      (⟨email, .pending, inviter, now⟩ : Invitation) := by
    rw [← List.getD_eq_getElem?_getD]
    exact getD_middle e.invitations _ [] default
  have hst : (e.invitations ++ [(⟨email, .pending, inviter, now⟩ : Invitation)]).set
      e.invitations.length ⟨email, .accepted, inviter, now⟩ =
      e.invitations ++ [⟨email, .accepted, inviter, now⟩] :=
    set_middle e.invitations _ _ []
  have hcm : e.members.contains userId = false := by simpa using hmem
  refine ⟨{ e with invitations :=
              e.invitations ++ [⟨email, .pending, inviter, now⟩] },
          { e with
            invitations := e.invitations ++ [⟨email, .accepted, inviter, now⟩]
            members := e.members ++ [userId] },
          hinv, ?_, by simp, by simp, ?_⟩
  · simp [acceptInvitation, hmid, hgd, hcm, hst, hmem]
  · rw [List.filter_append,
      List.filter_eq_nil_iff.mpr (fun a ha => by simpa using hfresh a ha)]
    simp

/-- Witness for C2: the round trip on a freshly created event. -/
theorem invite_accept_round_trip_witness :
    ∃ e1 e2,
      inviteUserToEvent (some (createEvent "Party" "u1" none "e1" 0))
        "b@x.com" "u1" 3 = .ok e1 ∧
      acceptInvitation (some e1) "u2" "b@x.com" = .ok e2 ∧
      e2.members = e1.members ++ ["u2"] ∧ "u2" ∈ e2.members ∧
      e2.invitations.filter (fun inv => inv.email == "b@x.com") =
        [⟨"b@x.com", .accepted, "u1", 3⟩] :=
  invite_accept_round_trip (createEvent "Party" "u1" none "e1" 0)
    "b@x.com" "u1" "u2" 3 (by decide) (by decide) (by decide)

/-- Inviting an email with no invitation record appends a fresh pending
record. -/
theorem invite_append_of_no_match (e : Event) {email : String}
    (inviter : String) (now : Nat)
    (hnomatch : ∀ inv ∈ e.invitations, inv.email ≠ email) :
    inviteUserToEvent (some e) email inviter now =
      .ok { e with invitations :=
              e.invitations ++ [⟨email, .pending, inviter, now⟩] } := by
  have hnone : findIndex (fun inv => inv.email == email) e.invitations = none :=
    findIndex_eq_none_iff.mpr (fun a ha => by simpa using hnomatch a ha)
  simp [inviteUserToEvent, hnone]

/-- Inviting an email whose first (and only) matching record is not
pending overwrites that record in place. -/
theorem invite_overwrite_of_single_match (e : Event) {email : String}
    (inviter : String) (now : Nat) {l1 l2 : List Invitation}
    {inv0 : Invitation}
    (heq : e.invitations = l1 ++ inv0 :: l2)
    (h1 : ∀ a ∈ l1, ¬ (a.email == email) = true)
    (hx : (inv0.email == email) = true)
    (hnp : inv0.status ≠ .pending) :
    inviteUserToEvent (some e) email inviter now =
      .ok { e with invitations :=
              l1 ++ ⟨email, .pending, inviter, now⟩ :: l2 } := by
  have hidx : findIndex (fun inv => inv.email == email) e.invitations =
      some l1.length := by
    rw [heq]; exact findIndex_middle inv0 l2 h1 hx
  have hget2 : (e.invitations[l1.length]?).getD default = inv0 := by
    rw [← List.getD_eq_getElem?_getD, heq]
    exact getD_middle l1 inv0 l2 default
  have hset : e.invitations.set l1.length ⟨email, .pending, inviter, now⟩ =
      l1 ++ ⟨email, .pending, inviter, now⟩ :: l2 := by
    rw [heq]; exact set_middle l1 inv0 _ l2
  simp [inviteUserToEvent, hidx, hget2, hnp, hset]

/-- C5: a non-creator member whose email carries the only invitation
record for that email, an accepted one, can be removed — the removal
succeeds and drops the user from the members — and a later invite for
that email then succeeds with a fresh pending record, both when the
profile-email lookup during the removal succeeds (the accepted record is
filtered away) and when it fails (the stale accepted record is kept and
later recycled in place by the invite). -/
theorem remove_member_then_reinvite (e : Event) (userId email inviter : String)
    (now : Nat) (inv0 : Invitation)
    (hnc : userId ≠ e.createdBy)
    (hmem : userId ∈ e.members)
    (hone : e.invitations.filter (fun inv => inv.email == email) = [inv0])
    (hacc : inv0.status = .accepted) :
    (∃ e1, removeMemberFromEvent (some e) userId (some email) = .ok e1 ∧
      userId ∉ e1.members ∧
      ∃ e2, inviteUserToEvent (some e1) email inviter now = .ok e2 ∧
        e2.invitations.filter (fun inv => inv.email == email) =
          [⟨email, .pending, inviter, now⟩]) ∧
    (∃ e1, removeMemberFromEvent (some e) userId none = .ok e1 ∧
      userId ∉ e1.members ∧
      ∃ e2, inviteUserToEvent (some e1) email inviter now = .ok e2 ∧
        e2.invitations.filter (fun inv => inv.email == email) =
          [⟨email, .pending, inviter, now⟩]) := by
  have hnc2 : ¬ (e.createdBy = userId) := fun h => hnc h.symm
  have hcontains : e.members.contains userId = true := by simpa using hmem
  have hnotmem : userId ∉ e.members.filter (fun uid => uid != userId) := by
    intro hin
    have := (List.mem_filter.mp hin).2
    simp at this
  constructor
  · -- profile-email lookup succeeded: the accepted record is removed
    refine ⟨{ e with
              members := e.members.filter (fun uid => uid != userId)
              invitations := e.invitations.filter
                (fun inv => !(inv.email == email &&
                  decide (inv.status = InvStatus.accepted))) },
            ?_, hnotmem, ?_⟩
    · simp [removeMemberFromEvent, hnc2, hcontains, hmem]
    · have hnomatch : ∀ inv ∈ e.invitations.filter
          (fun inv => !(inv.email == email &&
            decide (inv.status = InvStatus.accepted))),
          inv.email ≠ email := by
        intro inv hin heq
        have hin2 : inv ∈ e.invitations := List.mem_of_mem_filter hin
        have hsingle : inv ∈ e.invitations.filter
            (fun inv => inv.email == email) :=
          List.mem_filter.mpr ⟨hin2, by simpa using heq⟩
        rw [hone, List.mem_singleton] at hsingle
        subst hsingle
        have hcond := (List.mem_filter.mp hin).2
        simp [heq, hacc] at hcond
      have hnomatch2 : ∀ inv ∈ e.invitations.filter
          (fun inv => !(inv.email == email &&
            decide (inv.status = InvStatus.accepted))),
          ¬ ((inv.email == email) = true) :=
        fun inv hin hc => hnomatch inv hin (by simpa using hc)
      refine ⟨_, invite_append_of_no_match _ inviter now hnomatch, ?_⟩
      show (e.invitations.filter
          (fun inv => !(inv.email == email &&
            decide (inv.status = InvStatus.accepted))) ++
          [(⟨email, .pending, inviter, now⟩ : Invitation)]).filter
          (fun inv => inv.email == email) = [⟨email, .pending, inviter, now⟩]
      rw [List.filter_append, List.filter_eq_nil_iff.mpr hnomatch2]
      simp
  · -- profile-email lookup failed: invitations are kept unchanged and
    -- the invite recycles the stale accepted record in place
    refine ⟨{ e with
              members := e.members.filter (fun uid => uid != userId)
              invitations := e.invitations },
            ?_, hnotmem, ?_⟩
    · simp [removeMemberFromEvent, hnc2, hcontains, hmem]
    · obtain ⟨l1, l2, heq, h1, h2, hx⟩ := filter_single_decomp hone
      have hidx : findIndex (fun inv => inv.email == email) e.invitations =
          some l1.length := by
        rw [heq]; exact findIndex_middle inv0 l2 h1 hx
      have hget2 : (e.invitations[l1.length]?).getD default = inv0 := by
        rw [← List.getD_eq_getElem?_getD, heq]
        exact getD_middle l1 inv0 l2 default
      have hset : e.invitations.set l1.length ⟨email, .pending, inviter, now⟩ =
          l1 ++ ⟨email, .pending, inviter, now⟩ :: l2 := by
        rw [heq]; exact set_middle l1 inv0 _ l2
      have hnp : ¬ (inv0.status = InvStatus.pending) := by
        rw [hacc]; exact fun h => InvStatus.noConfusion h
      refine ⟨_, invite_overwrite_of_single_match _ inviter now heq h1 hx hnp,
        ?_⟩
      show (l1 ++ (⟨email, .pending, inviter, now⟩ : Invitation) :: l2).filter
          (fun inv => inv.email == email) = [⟨email, .pending, inviter, now⟩]
      rw [List.filter_append, List.filter_eq_nil_iff.mpr h1,
        List.filter_cons_of_pos (by simp),
        List.filter_eq_nil_iff.mpr h2]
      simp

/-- Witness for C5 at a concrete event: removing the member behind the
single accepted record, then re-inviting the same email. -/
theorem remove_member_then_reinvite_witness :
    (∃ e1, removeMemberFromEvent (some oneAcceptedEvent) "u2"
        (some "b@x.com") = .ok e1 ∧
      "u2" ∉ e1.members ∧
      ∃ e2, inviteUserToEvent (some e1) "b@x.com" "u1" 7 = .ok e2 ∧
        e2.invitations.filter (fun inv => inv.email == "b@x.com") =
          [⟨"b@x.com", .pending, "u1", 7⟩]) ∧
    (∃ e1, removeMemberFromEvent (some oneAcceptedEvent) "u2" none = .ok e1 ∧
      "u2" ∉ e1.members ∧
      ∃ e2, inviteUserToEvent (some e1) "b@x.com" "u1" 7 = .ok e2 ∧
        e2.invitations.filter (fun inv => inv.email == "b@x.com") =
          [⟨"b@x.com", .pending, "u1", 7⟩]) :=
  remove_member_then_reinvite oneAcceptedEvent "u2" "b@x.com" "u1" 7
    ⟨"b@x.com", .accepted, "u1", 0⟩ (by decide) (by decide) (by decide)
    (by decide)

/-- Value of one optional key of a JavaScript object: the key can be
absent, present holding `undefined`, or present holding a value. The
strict TypeScript field types of src/lib/firestore/wishlists.ts admit no
`null` for these keys, so no null constructor is needed. -/
inductive JField (α : Type) where
  | absent
  | undefined
  | val (a : α)
deriving DecidableEq, Inhabited

/-- Action of removeUndefined (src/lib/firestore/wishlists.ts, lines
19-27) on one key: a key holding `undefined` is dropped from the
object; any other key is copied as is. -/
def removeUndefinedField {α : Type} : JField α → JField α
  | .undefined => .absent
  | f => f

/-- Semantics of the JS object spread `{...base, ...upd}` on one key:
a key present in `upd` (even holding `undefined`) wins; a key absent
from `upd` keeps the base value. -/
def spreadField {α : Type} (base upd : JField α) : JField α :=
  match upd with
  | .absent => base
  | u => u

/-- Spread on one required (always-present) key: the update value wins
when it is a real value. The `undefined` branch cannot arise from the code,
which spreads only sanitized updates over required keys. -/
def spreadRequired (base : String) (upd : JField String) : String :=
  match upd with
  | .val v => v
  | _ => base

/-- One element of the `items` array of a wishlist document (interface
`WishlistItem` in src/lib/firestore/wishlists.ts). `id` and `name` are
required; the remaining keys are optional. `price` is a JS number,
modelled as `Int` (the claims never compute with it). -/
structure WishlistItem where
  id : String
  name : String
  description : JField String
  link : JField String
  price : JField Int
  purchasedBy : JField String
  purchasedAt : JField Nat
deriving DecidableEq, Inhabited

/-- removeUndefined applied to a whole WishlistItem: every optional key
holding `undefined` is dropped (`id` and `name` are typed `string` and
never hold `undefined`). -/
def removeUndefinedItem (item : WishlistItem) : WishlistItem :=
  { item with
    description := removeUndefinedField item.description
    link := removeUndefinedField item.link
    price := removeUndefinedField item.price
    purchasedBy := removeUndefinedField item.purchasedBy
    purchasedAt := removeUndefinedField item.purchasedAt }

/-- cleanWishlistItems (src/lib/firestore/wishlists.ts, lines 49-58):
re-sanitizes every item; the `{id, name, ...cleaned}` rebuild keeps the
required keys, which the sanitizer never drops. -/
def cleanWishlistItems (items : List WishlistItem) : List WishlistItem :=
  items.map (fun item => removeUndefinedItem item)

/-- A `wishlists/{id}` document (interface `Wishlist` in
src/lib/firestore/wishlists.ts). -/
structure Wishlist where
  id : String
  name : String
  eventId : String
  createdBy : String
  createdAt : Nat
  items : List WishlistItem
deriving DecidableEq, Inhabited

/-- Caller-supplied fields of a new item (`Omit<WishlistItem, "id">`):
`name` is required, every optional key may be absent, undefined, or a
value. -/
structure NewItem where
  name : String
  description : JField String
  link : JField String
  price : JField Int
  purchasedBy : JField String
  purchasedAt : JField Nat
deriving DecidableEq, Inhabited

/-- addItemToWishlist (src/lib/firestore/wishlists.ts, lines 136-166).
`wl` is the outcome of the document read; `now` stands for `Date.now()`,
whose decimal string becomes the new item id. The new item is
`{id, name: item.name, ...removeUndefined(item)}` and the existing items
are re-cleaned before the whole array is written back. -/
def addItemToWishlist (wl : Option Wishlist) (item : NewItem) (now : Nat) :
    Except String Wishlist :=
  match wl with
  | none => .error "Wishlist not found"
  | some wishlistData =>
    let newItem : WishlistItem :=
      { id := toString now
        name := item.name
        description := removeUndefinedField item.description
        link := removeUndefinedField item.link
        price := removeUndefinedField item.price
        purchasedBy := removeUndefinedField item.purchasedBy
        purchasedAt := removeUndefinedField item.purchasedAt }
    .ok { wishlistData with
          items := cleanWishlistItems wishlistData.items ++ [newItem] }

/-- Partial update accepted by updateWishlistItem
(`Partial<WishlistItem>`): every key, required ones included, may be
absent, undefined, or a value. -/
structure ItemUpdate where
  id : JField String
  name : JField String
  description : JField String
  link : JField String
  price : JField Int
  purchasedBy : JField String
  purchasedAt : JField Nat
deriving DecidableEq, Inhabited

/-- removeUndefined applied to a partial update. -/
def removeUndefinedUpdate (u : ItemUpdate) : ItemUpdate :=
  { id := removeUndefinedField u.id
    name := removeUndefinedField u.name
    description := removeUndefinedField u.description
    link := removeUndefinedField u.link
    price := removeUndefinedField u.price
    purchasedBy := removeUndefinedField u.purchasedBy
    purchasedAt := removeUndefinedField u.purchasedAt }

/-- JS object spread `{...item, ...u}` merging a (sanitized) partial
update over an item. -/
def mergeItem (item : WishlistItem) (u : ItemUpdate) : WishlistItem :=
  { id := spreadRequired item.id u.id
    name := spreadRequired item.name u.name
    description := spreadField item.description u.description
    link := spreadField item.link u.link
    price := spreadField item.price u.price
    purchasedBy := spreadField item.purchasedBy u.purchasedBy
    purchasedAt := spreadField item.purchasedAt u.purchasedAt }

/-- updateWishlistItem (src/lib/firestore/wishlists.ts, lines 168-195).
Sanitizes the update, merges it over every item whose id matches, cleans
all items, and writes the whole array back. There is no check that an
item with the given id exists. -/
def updateWishlistItem (wl : Option Wishlist) (itemId : String)
    (updates : ItemUpdate) : Except String Wishlist :=
  match wl with
  | none => .error "Wishlist not found"
  | some wishlistData =>
    let cleanedUpdates := removeUndefinedUpdate updates
    let updatedItems := wishlistData.items.map (fun item =>
      if item.id == itemId then mergeItem item cleanedUpdates else item)
    .ok { wishlistData with items := cleanWishlistItems updatedItems }

/-- Sanitizing never leaves an undefined key behind. -/
theorem removeUndefinedField_ne_undefined {α : Type} (f : JField α) :
    removeUndefinedField f ≠ .undefined := by
  cases f <;> simp [removeUndefinedField]

/-- A key supplied with no value is dropped by sanitization. -/
theorem removeUndefinedField_of_no_value {α : Type} {f : JField α}
    (h : f = .absent ∨ f = .undefined) : removeUndefinedField f = .absent := by
  rcases h with rfl | rfl <;> rfl

/-- Spreading a sanitized key supplied with no value keeps the base. -/
theorem spread_sanitized_keeps_base {α : Type} (base : JField α)
    {u : JField α} (h : u = .absent ∨ u = .undefined) :
    spreadField base (removeUndefinedField u) = base := by
  rcases h with rfl | rfl <;> rfl

/-- Spreading a sanitized key supplied with no value keeps a required
base key. -/
theorem spreadRequired_sanitized_keeps_base (base : String)
    {u : JField String} (h : u = .absent ∨ u = .undefined) :
    spreadRequired base (removeUndefinedField u) = base := by
  rcases h with rfl | rfl <;> rfl

/-- Merging any sanitized update over a key holding a value leaves a
key holding a value — the key is never removed. -/
theorem sanitize_spread_val {α : Type} (u : JField α) (v : α) :
    ∃ v2, removeUndefinedField
      (spreadField (JField.val v) (removeUndefinedField u)) =
      JField.val v2 := by
  cases u <;> exact ⟨_, rfl⟩

/-- Element-level description of the array written by
updateWishlistItem. -/
theorem updated_items_get (w : Wishlist) (itemId : String) (u : ItemUpdate)
    (i : Nat) (hi : i < w.items.length)
    (hi2 : i < (cleanWishlistItems (w.items.map (fun item =>
      if item.id == itemId then mergeItem item (removeUndefinedUpdate u)
      else item))).length) :
    (cleanWishlistItems (w.items.map (fun item =>
      if item.id == itemId then mergeItem item (removeUndefinedUpdate u)
      else item))).get ⟨i, hi2⟩ =
    removeUndefinedItem (if (w.items.get ⟨i, hi⟩).id == itemId
      then mergeItem (w.items.get ⟨i, hi⟩) (removeUndefinedUpdate u)
      else w.items.get ⟨i, hi⟩) := by
  simp [cleanWishlistItems, List.get_eq_getElem, List.getElem_map]

/-- Wishlist with one clean item of id "1", used against C6. -/
def sockWishlist : Wishlist :=
  { id := "w1"
    name := "Mine"
    eventId := "e1"
    createdBy := "u1"
    createdAt := 0
    items := [⟨"1", "Socks", .absent, .absent, .absent, .absent, .absent⟩] }

/-- Partial update that only renames an item. -/
def renameUpdate : ItemUpdate :=
  ⟨.absent, .val "Shoes", .absent, .absent, .absent, .absent, .absent⟩

/-- C6 counterexample: no item of `sockWishlist` has id "2", yet
updateWishlistItem succeeds (writing the array back unchanged) instead
of failing with a NotFound error. -/
theorem update_missing_item_counterexample :
    (∀ item ∈ sockWishlist.items, item.id ≠ "2") ∧
    updateWishlistItem (some sockWishlist) "2" renameUpdate =
      .ok sockWishlist := by
  decide

/-- C6 (amended): updateWishlistItem fails with "Wishlist not found"
exactly when the wishlist document is missing; on an existing wishlist
it always succeeds — when no item carries the given id every item is
only re-sanitized — and where an item with the id sits, the sanitized
partial fields are merged over it, every other position changing only by
sanitization. -/
theorem updateWishlistItem_spec (itemId : String) (u : ItemUpdate) :
    (updateWishlistItem none itemId u = .error "Wishlist not found") ∧
    (∀ w : Wishlist, ∃ w2,
      updateWishlistItem (some w) itemId u = .ok w2 ∧
      w2.items.length = w.items.length ∧
      (∀ i (hi : i < w.items.length) (hi2 : i < w2.items.length),
        ((w.items.get ⟨i, hi⟩).id = itemId →
          w2.items.get ⟨i, hi2⟩ =
            removeUndefinedItem
              (mergeItem (w.items.get ⟨i, hi⟩) (removeUndefinedUpdate u))) ∧
        ((w.items.get ⟨i, hi⟩).id ≠ itemId →
          w2.items.get ⟨i, hi2⟩ =
            removeUndefinedItem (w.items.get ⟨i, hi⟩))) ∧
      ((∀ item ∈ w.items, item.id ≠ itemId) →
        w2.items = cleanWishlistItems w.items)) := by
  refine ⟨rfl, fun w => ⟨_, rfl, by simp [cleanWishlistItems], ?_, ?_⟩⟩
  · intro i hi hi2
    constructor
    · intro hid
      rw [updated_items_get w itemId u i hi hi2, if_pos (by simpa using hid)]
    · intro hid
      rw [updated_items_get w itemId u i hi hi2,
        if_neg (by simpa using hid)]
  · intro hnone
    have hmap : w.items.map (fun item =>
        if item.id == itemId then mergeItem item (removeUndefinedUpdate u)
        else item) = w.items := by
      conv_rhs => rw [← List.map_id w.items]
      exact List.map_congr_left (fun a ha => by simp [hnone a ha])
    show cleanWishlistItems (w.items.map _) = cleanWishlistItems w.items
    rw [hmap]

/-- Witness for the amended C6: the missing-wishlist error, and a
successful update of the one item of `sockWishlist`. -/
theorem updateWishlistItem_spec_witness :
    updateWishlistItem none "1" renameUpdate = .error "Wishlist not found" ∧
    ∃ w2, updateWishlistItem (some sockWishlist) "1" renameUpdate = .ok w2 ∧
      w2.items.length = sockWishlist.items.length ∧
      ∃ h0 : 0 < w2.items.length,
        w2.items.get ⟨0, h0⟩ =
          removeUndefinedItem (mergeItem
            (sockWishlist.items.get ⟨0, by decide⟩)
            (removeUndefinedUpdate renameUpdate)) := by
  obtain ⟨w2, h1, h2, hpt, -⟩ :=
    (updateWishlistItem_spec "1" renameUpdate).2 sockWishlist
  have h0 : 0 < w2.items.length := by rw [h2]; decide
  exact ⟨(updateWishlistItem_spec "1" renameUpdate).1, w2, h1, h2, h0,
    (hpt 0 (by decide) h0).1 (by decide)⟩

/-- Predicate of C7: no optional key of the item holds `undefined`. -/
def itemHasNoUndef (item : WishlistItem) : Prop :=
  item.description ≠ .undefined ∧ item.link ≠ .undefined ∧ item.price ≠ .undefined ∧
  item.purchasedBy ≠ .undefined ∧ item.purchasedAt ≠ .undefined

/-- C7: addItemToWishlist writes the previous items re-sanitized — no
key of any written item holds undefined — followed by exactly one new
item carrying the freshly generated id and the supplied name, in which
every optional field supplied with no value is omitted entirely. -/
theorem addItemToWishlist_spec (w : Wishlist) (item : NewItem) (now : Nat) :
    ∃ newIt : WishlistItem,
      addItemToWishlist (some w) item now =
        .ok { w with items := cleanWishlistItems w.items ++ [newIt] } ∧
      newIt.id = toString now ∧ newIt.name = item.name ∧
      (∀ it ∈ cleanWishlistItems w.items, itemHasNoUndef it) ∧
      itemHasNoUndef newIt ∧
      ((item.description = .absent ∨ item.description = .undefined) →
        newIt.description = .absent) ∧
      ((item.link = .absent ∨ item.link = .undefined) →
        newIt.link = .absent) ∧
      ((item.price = .absent ∨ item.price = .undefined) →
        newIt.price = .absent) ∧
      ((item.purchasedBy = .absent ∨ item.purchasedBy = .undefined) →
        newIt.purchasedBy = .absent) ∧
      ((item.purchasedAt = .absent ∨ item.purchasedAt = .undefined) →
        newIt.purchasedAt = .absent) := by
  refine ⟨_, rfl, rfl, rfl, ?_, ?_, ?_, ?_, ?_, ?_, ?_⟩
  · intro it hit
    obtain ⟨x, -, rfl⟩ := List.mem_map.mp hit
    exact ⟨removeUndefinedField_ne_undefined _, removeUndefinedField_ne_undefined _,
      removeUndefinedField_ne_undefined _, removeUndefinedField_ne_undefined _,
      removeUndefinedField_ne_undefined _⟩
  · exact ⟨removeUndefinedField_ne_undefined _, removeUndefinedField_ne_undefined _,
      removeUndefinedField_ne_undefined _, removeUndefinedField_ne_undefined _,
      removeUndefinedField_ne_undefined _⟩
  · exact removeUndefinedField_of_no_value
  · exact removeUndefinedField_of_no_value
  · exact removeUndefinedField_of_no_value
  · exact removeUndefinedField_of_no_value
  · exact removeUndefinedField_of_no_value

/-- Fields of a new item whose description is explicitly undefined and
whose link is absent. -/
def hatItem : NewItem := ⟨"Hat", .undefined, .absent, .val 5, .absent, .absent⟩

/-- Witness for C7: adding `hatItem` persists neither its undefined
description nor its absent link. -/
theorem addItemToWishlist_spec_witness :
    ∃ newIt : WishlistItem,
      addItemToWishlist (some sockWishlist) hatItem 42 =
        .ok { sockWishlist with
              items := cleanWishlistItems sockWishlist.items ++ [newIt] } ∧
      newIt.id = toString (42 : Nat) ∧ newIt.name = "Hat" ∧
      newIt.description = JField.absent ∧ newIt.link = JField.absent := by
  obtain ⟨newIt, hok, hid, hname, -, -, hdesc, hlink, -⟩ :=
    addItemToWishlist_spec sockWishlist hatItem 42
  exact ⟨newIt, hok, hid, hname, hdesc (Or.inr rfl), hlink (Or.inl rfl)⟩

/-- C10: updateWishlistItem never removes an existing key of the matched
item — a key absent from the update, or supplied with undefined, keeps
its prior value — so a purchased mark (purchasedBy/purchasedAt) can
never be cleared through updateWishlistItem, whatever the update. -/
theorem updateWishlistItem_frame (w : Wishlist) (itemId : String)
    (u : ItemUpdate) :
    ∃ w2, updateWishlistItem (some w) itemId u = .ok w2 ∧
      w2.items.length = w.items.length ∧
      ∀ i (hi : i < w.items.length) (hi2 : i < w2.items.length),
        (w.items.get ⟨i, hi⟩).id = itemId →
        (((u.id = .absent ∨ u.id = .undefined) →
            (w2.items.get ⟨i, hi2⟩).id = (w.items.get ⟨i, hi⟩).id) ∧
          ((u.name = .absent ∨ u.name = .undefined) →
            (w2.items.get ⟨i, hi2⟩).name = (w.items.get ⟨i, hi⟩).name) ∧
          (∀ v, (u.description = .absent ∨ u.description = .undefined) →
            (w.items.get ⟨i, hi⟩).description = .val v →
            (w2.items.get ⟨i, hi2⟩).description = .val v) ∧
          (∀ v, (u.link = .absent ∨ u.link = .undefined) →
            (w.items.get ⟨i, hi⟩).link = .val v →
            (w2.items.get ⟨i, hi2⟩).link = .val v) ∧
          (∀ v, (u.price = .absent ∨ u.price = .undefined) →
            (w.items.get ⟨i, hi⟩).price = .val v →
            (w2.items.get ⟨i, hi2⟩).price = .val v) ∧
          (∀ v, (u.purchasedBy = .absent ∨ u.purchasedBy = .undefined) →
            (w.items.get ⟨i, hi⟩).purchasedBy = .val v →
            (w2.items.get ⟨i, hi2⟩).purchasedBy = .val v) ∧
          (∀ v, (u.purchasedAt = .absent ∨ u.purchasedAt = .undefined) →
            (w.items.get ⟨i, hi⟩).purchasedAt = .val v →
            (w2.items.get ⟨i, hi2⟩).purchasedAt = .val v) ∧
          (∀ v, (w.items.get ⟨i, hi⟩).purchasedBy = .val v →
            ∃ v2, (w2.items.get ⟨i, hi2⟩).purchasedBy = .val v2) ∧
          (∀ v, (w.items.get ⟨i, hi⟩).purchasedAt = .val v →
            ∃ v2, (w2.items.get ⟨i, hi2⟩).purchasedAt = .val v2)) := by
  refine ⟨_, rfl, by simp [cleanWishlistItems], ?_⟩
  intro i hi hi2 hid
  have hget := updated_items_get w itemId u i hi hi2
  rw [if_pos (by simpa using hid)] at hget
  rw [hget]
  dsimp only [removeUndefinedItem, mergeItem, removeUndefinedUpdate]
  refine ⟨?_, ?_, ?_, ?_, ?_, ?_, ?_, ?_, ?_⟩
  · intro h
    show spreadRequired _ _ = _
    exact spreadRequired_sanitized_keeps_base _ h
  · intro h
    show spreadRequired _ _ = _
    exact spreadRequired_sanitized_keeps_base _ h
  · intro v h hv
    show removeUndefinedField (spreadField _ _) = _
    rw [spread_sanitized_keeps_base _ h, hv]
    rfl
  · intro v h hv
    show removeUndefinedField (spreadField _ _) = _
    rw [spread_sanitized_keeps_base _ h, hv]
    rfl
  · intro v h hv
    show removeUndefinedField (spreadField _ _) = _
    rw [spread_sanitized_keeps_base _ h, hv]
    rfl
  · intro v h hv
    show removeUndefinedField (spreadField _ _) = _
    rw [spread_sanitized_keeps_base _ h, hv]
    rfl
  · intro v h hv
    show removeUndefinedField (spreadField _ _) = _
    rw [spread_sanitized_keeps_base _ h, hv]
    rfl
  · intro v hv
    show ∃ v2, removeUndefinedField (spreadField _ _) = JField.val v2
    rw [hv]
    exact sanitize_spread_val _ v
  · intro v hv
    show ∃ v2, removeUndefinedField (spreadField _ _) = JField.val v2
    rw [hv]
    exact sanitize_spread_val _ v

/-- Wishlist with one purchased item, used to witness C10. -/
def purchasedWishlist : Wishlist :=
  { id := "w2"
    name := "Theirs"
    eventId := "e1"
    createdBy := "u1"
    createdAt := 0
    items := [⟨"1", "Socks", .absent, .absent, .absent,
      .val "u2", .val 3⟩] }

/-- Update that tries to clear the purchased mark by supplying
undefined for purchasedBy and purchasedAt. -/
def clearAttemptUpdate : ItemUpdate :=
  ⟨.absent, .absent, .absent, .absent, .absent, .undefined, .undefined⟩

/-- Witness for C10: supplying undefined for purchasedBy/purchasedAt
leaves the purchased mark in place. -/
theorem updateWishlistItem_frame_witness :
    ∃ w2, updateWishlistItem (some purchasedWishlist) "1"
        clearAttemptUpdate = .ok w2 ∧
      w2.items.length = purchasedWishlist.items.length ∧
      ∃ h0 : 0 < w2.items.length,
        (w2.items.get ⟨0, h0⟩).purchasedBy = JField.val "u2" ∧
        (w2.items.get ⟨0, h0⟩).purchasedAt = JField.val 3 := by
  obtain ⟨w2, hok, hlen, hpt⟩ :=
    updateWishlistItem_frame purchasedWishlist "1" clearAttemptUpdate
  have h0 : 0 < w2.items.length := by rw [hlen]; decide
  obtain ⟨-, -, -, -, -, hpb, hpa, -, -⟩ := hpt 0 (by decide) h0 (by decide)
  exact ⟨w2, hok, hlen, h0,
    hpb "u2" (Or.inr rfl) (by decide), hpa 3 (Or.inr rfl) (by decide)⟩

/-- Status of an assignment (assignments module in src/lib). -/
inductive AssignStatus where
  | pending
  | purchased
deriving DecidableEq, Inhabited

/-- An `assignments/{id}` document (interface `Assignment`). -/
structure Assignment where
  id : String
  eventId : String
  wishlistId : String
  assignedTo : String
  assignedBy : String
  createdAt : Nat
  status : AssignStatus
deriving DecidableEq, Inhabited

/-- createAssignment (assignments module, src/lib/firebase.ts lines
94-127). The collection is modelled as a list of documents; the
compound query becomes a filter on the triple. The result pairs the
call outcome with the collection state after the call: a conflicting
call throws before `addDoc`, so the collection is returned unchanged. -/
def createAssignment (assignments : List Assignment)
    (eventId wishlistId assignedTo assignedBy : String)
    (newId : String) (now : Nat) :
    Except String String × List Assignment :=
  let existingDocs := assignments.filter (fun a =>
    a.eventId == eventId && a.wishlistId == wishlistId &&
    a.assignedTo == assignedTo)
  if !existingDocs.isEmpty then
    (.error "Assignment already exists", assignments)
  else
    (.ok newId,
      assignments ++
        [⟨newId, eventId, wishlistId, assignedTo, assignedBy, now, .pending⟩])

/-- C8: when createAssignment succeeds, a second sequential call for the
same (eventId, wishlistId, assignedTo) triple fails with the
"Assignment already exists" conflict and leaves the collection exactly
as the first call wrote it — no record is inserted. -/
theorem createAssignment_conflict
    {assignments assignments2 : List Assignment}
    {eventId wishlistId assignedTo assignedBy newId : String} {now : Nat}
    {result : String}
    (h : createAssignment assignments eventId wishlistId assignedTo
      assignedBy newId now = (.ok result, assignments2))
    (assignedBy2 newId2 : String) (now2 : Nat) :
    createAssignment assignments2 eventId wishlistId assignedTo
      assignedBy2 newId2 now2 =
      (.error "Assignment already exists", assignments2) := by
  unfold createAssignment at h
  by_cases hne : (assignments.filter (fun a =>
      a.eventId == eventId && a.wishlistId == wishlistId &&
      a.assignedTo == assignedTo)).isEmpty
  · rw [if_neg (by simp [hne])] at h
    injection h with h1 h2
    subst h2
    unfold createAssignment
    rw [if_pos]
    rw [List.filter_append]
    simp
  · rw [if_pos (by simp [hne])] at h
    injection h with h1 h2
    exact Except.noConfusion h1

/-- Witness for C8: the second identical assignment on an initially
empty collection is rejected. -/
theorem createAssignment_conflict_witness :
    createAssignment
      [⟨"a1", "e1", "w1", "u2", "u1", 4, .pending⟩]
      "e1" "w1" "u2" "u1" "a2" 5 =
      (.error "Assignment already exists",
        [⟨"a1", "e1", "w1", "u2", "u1", 4, .pending⟩]) :=
  @createAssignment_conflict []
    [⟨"a1", "e1", "w1", "u2", "u1", 4, .pending⟩]
    "e1" "w1" "u2" "u1" "a1" 4 "a1" (by decide) "u1" "a2" 5

/-- A `users/{uid}` document (interface `UserData` in src/lib/auth.ts). -/
structure UserData where
  email : String
  displayName : String
  createdAt : Nat
deriving DecidableEq, Inhabited

/-- Outcome of the underlying document read of a user profile: the
document exists with data, the document is missing, or the store
rejected the read with an error carrying a code and a message. -/
inductive ProfileRead where
  | found (data : UserData)
  | missing
  | failure (code : String) (message : String)

/-- Test whether `sub` occurs as a contiguous run inside `chars`
(model of JS `String.includes`, on character lists). -/
def charsStartWith : List Char → List Char → Bool
  | [], _ => true
  | _ :: _, [] => false
  | c :: cs, d :: ds => c == d && charsStartWith cs ds

/-- Occurrence of a character run anywhere in the list. -/
def charsContain (sub : List Char) : List Char → Bool
  | [] => charsStartWith sub []
  | c :: cs => charsStartWith sub (c :: cs) || charsContain sub cs

/-- Model of JS `message.includes(sub)`. -/
def stringIncludes (message sub : String) : Bool :=
  charsContain sub.data message.data

/-- getUserData (src/lib/auth.ts, lines 295-311, the current definition
of the function; an earlier revision without the permission-denied catch
sits at lines 99-109 of the concatenated file). A missing document
yields `null` (modelled `none`); a read failure whose code is
"permission-denied" or whose message mentions "permission" also yields
`null`; any other failure is re-thrown with its message (or the default
message when it is empty, modelling the `||` fallback). -/
def getUserData (read : ProfileRead) : Except String (Option UserData) :=
  match read with
  | .found data => .ok (some data)
  | .missing => .ok none
  | .failure code message =>
    if code == "permission-denied" || stringIncludes message "permission" then
      .ok none
    else
      .error (if message == "" then "Failed to get user data" else message)

/-- C9: a permission-denied profile read degrades to "no profile"
(`none`) instead of failing, and a read of a missing user document
likewise yields `none` rather than an error. -/
theorem getUserData_degrades (message : String) :
    getUserData (.failure "permission-denied" message) = .ok none ∧
    getUserData .missing = .ok none := by
  constructor
  · simp [getUserData]
  · rfl

/-- Witness for C9 at concrete inputs. -/
theorem getUserData_degrades_witness :
    getUserData (.failure "permission-denied" "Missing or insufficient permissions.") =
      .ok none ∧
    getUserData .missing = .ok none :=
  getUserData_degrades "Missing or insufficient permissions."

end GiftPlanner
